import Mathlib

/-!
# Verification of the projectbingsu ordering platform

Shallow embedding of the menu-code lifecycle (`backend/models/MenuCode.js`),
the admin order-status transitions (`src/pages/admin/orders/index.tsx`),
the sales-report aggregation (`src/pages/admin/sales-report/index.tsx`) and
the review-page average (`src/pages/review/index.tsx`).

Modelling conventions:
* The MongoDB collection of menu codes has a unique index on `code`, so it
  is embedded as a function `String → Option MenuCode`; `findOne {code}` is
  application of that function, and `save` updates the entry at the
  document's own `code` key.
* JavaScript `Date` values are `Nat` millisecond timestamps; `new Date()`
  inside an operation becomes an explicit `now` argument.
* `Math.floor(Math.random() * 36)` becomes a stream `rand : Nat → Fin 36`
  of draws, consumed in order.
* A method that can `throw` returns `Except String _`; a static that also
  writes the collection additionally returns the updated collection.
* JavaScript numbers that undergo division are embedded as `Rat`.
-/

namespace Bingsu

/-- A document of the `menuCodeSchema` collection (`MenuCode.js` lines 3-45).
`order` holds the linked order's id (`null` initially). -/
structure MenuCode where
  code : String
  cupSize : String
  order : Option Nat
  isUsed : Bool
  usedAt : Option Nat
  expiresAt : Nat
  createdAt : Nat
deriving DecidableEq, Repr

/-- The stored menu-code collection, keyed by its unique `code` index. -/
def Store : Type := String → Option MenuCode

/-- JavaScript `String.prototype.toUpperCase` on the ASCII strings used as
codes: uppercase every character. -/
def jsToUpper (s : String) : String := String.mk (s.data.map Char.toUpper)

/-- A fresh document with schema defaults applied (`MenuCode.js` lines 17-44):
`order: null`, `isUsed: false`, `usedAt: null`,
`expiresAt: Date.now() + 24*60*60*1000`, `createdAt: Date.now()`. -/
def newMenuCode (code cupSize : String) (now : Nat) : MenuCode :=
  { code := code, cupSize := cupSize, order := none, isUsed := false,
    usedAt := none, expiresAt := now + 24 * 60 * 60 * 1000, createdAt := now }

/-- `document.save()`: write the document back at its unique `code` key. -/
def saveCode (store : Store) (mc : MenuCode) : Store :=
  fun k => if k == mc.code then some mc else store k

/-- The alphabet of `generateCode` (`MenuCode.js` line 49). -/
def chars : List Char := "ABCDEFGHIJKLMNOPQRSTUVWXYZ0123456789".toList

/-- One candidate code: five successive draws from the random stream
(`MenuCode.js` lines 55-58); draw `i` of attempt `a` is stream position
`5*a + i`.  Each draw indexes `chars`; the `getD` default is unreachable
because every `Fin 36` value is below `chars.length`. -/
def mkCode (rand : Nat → Fin 36) (attempt : Nat) : String :=
  String.mk ((List.range 5).map fun i => chars.getD (rand (5 * attempt + i)).val 'A')

/-- The retry loop of `generateCode` (`MenuCode.js` lines 54-68), with the
remaining-attempts budget made an explicit fuel argument. -/
def generateCodeFrom (store : Store) (rand : Nat → Fin 36) :
    Nat → Nat → Except String String
  | _, 0 => .error "Unable to generate unique code after maximum attempts"
  | attempt, fuel + 1 =>
    let code := mkCode rand attempt
    match store code with
    | none => .ok code
    | some _ => generateCodeFrom store rand (attempt + 1) fuel

/-- `MenuCode.generateCode` (`MenuCode.js` lines 48-69): `maxAttempts = 100`. -/
def generateCode (store : Store) (rand : Nat → Fin 36) : Except String String :=
  generateCodeFrom store rand 0 100

/-- `MenuCode.createCode` (`MenuCode.js` lines 72-82): generate a code, build
the document with schema defaults, save it. -/
def createCode (store : Store) (rand : Nat → Fin 36) (cupSize : String)
    (now : Nat) : Except String (MenuCode × Store) :=
  match generateCode store rand with
  | .error e => .error e
  | .ok code =>
    let mc := newMenuCode code cupSize now
    .ok (mc, saveCode store mc)

/-- `MenuCode.validateCode` (`MenuCode.js` lines 85-103). -/
def validateCode (store : Store) (now : Nat) (code : String) :
    Except String MenuCode :=
  match store (jsToUpper code) with
  | none => .error "Invalid code"
  | some mc =>
    if mc.expiresAt < now then .error "Code has expired"
    else if mc.isUsed then .error "Code has already been used"
    else .ok mc

/-- `MenuCode.useCode` (`MenuCode.js` lines 106-129): on success the document
is marked used, linked to the order, stamped, and saved; on failure the
collection is untouched (the throw happens before any assignment). -/
def useCode (store : Store) (now : Nat) (code : String) (orderId : Nat) :
    Except String MenuCode × Store :=
  match store (jsToUpper code) with
  | none => (.error "Invalid code", store)
  | some mc =>
    if mc.expiresAt < now then (.error "Code has expired", store)
    else if mc.isUsed then (.error "Code has already been used", store)
    else
      let mc2 := { mc with isUsed := true, order := some orderId, usedAt := some now }
      (.ok mc2, saveCode store mc2)

/-- `MenuCode.getOrderByCode` (`MenuCode.js` lines 132-146); `populate` is
embedded as returning the linked order id itself. -/
def getOrderByCode (store : Store) (code : String) : Except String Nat :=
  match store (jsToUpper code) with
  | none => .error "Invalid code"
  | some mc =>
    match mc.order with
    | none => .error "No order found for this code"
    | some oid => .ok oid

/-- The `canBeUsed` method (`MenuCode.js` lines 149-159), returning the
`{ valid, reason }` record as a pair. -/
def canBeUsed (mc : MenuCode) (now : Nat) : Bool × Option String :=
  if mc.expiresAt < now then (false, some "Code has expired")
  else if mc.isUsed then (false, some "Code has already been used")
  else (true, none)

/-! ## Admin order-status transitions (`src/pages/admin/orders/index.tsx`) -/

/-- `getNextStatus` (lines 87-94): the `statusFlow` record lookup; statuses
outside the record give `undefined`. -/
def getNextStatus (s : String) : Option String :=
  if s == "Pending" then some "Preparing"
  else if s == "Preparing" then some "Ready"
  else if s == "Ready" then some "Completed"
  else none

/-- The transition buttons rendered for an order of status `s`
(lines 214-236): unless the status is `Completed` or `Cancelled`, a
"Mark as next" button whenever `getNextStatus` is defined, plus a
"Cancel" button; terminal statuses get no buttons. -/
def offeredStatusActions (s : String) : List String :=
  if s != "Completed" && s != "Cancelled" then
    (match getNextStatus s with
     | some nxt => [nxt]
     | none => []) ++ ["Cancelled"]
  else []

/-! ## Sales report (`src/pages/admin/sales-report/index.tsx`) -/

/-- The fields of an order that `calculateEnhancedSalesData` reads; `hour`
is `new Date(order.createdAt).getHours()`, the one-hour bucket of the
creation time. -/
structure ROrder where
  flavor : String
  toppings : List String
  total : Rat
  status : String
  hour : Nat
deriving DecidableEq

/-- One step of the counting object: `obj[k] = (obj[k] || 0) + 1`.  A
JavaScript object with string keys is insertion-ordered, hence an
association list: an existing key is bumped in place, a new key is
appended with count 1. -/
def bump (m : List (String × Nat)) (k : String) : List (String × Nat) :=
  if (m.find? (fun p => p.1 == k)).isSome then
    m.map (fun p => if p.1 == k then (p.1, p.2 + 1) else p)
  else m ++ [(k, 1)]

/-- The counting object built by the `forEach` loops: fold `bump` over the
occurrence list. -/
def tally (ks : List String) : List (String × Nat) := ks.foldl bump []

/-- `Math.max(...Object.values(counts), 0)`. -/
def maxValue (m : List (String × Nat)) : Nat := (m.map Prod.snd).foldr max 0

/-- The shared top-items pipeline (`sales-report` lines 127-131, 141-145,
155-159): keep the entries whose count equals the maximum and the maximum
is positive, then sort descending by count. -/
def topItems (ks : List String) : List (String × Nat) :=
  let m := tally ks
  let maxC := maxValue m
  (m.filter (fun p => p.2 == maxC && decide (0 < maxC))).mergeSort
    (fun a b => decide (b.2 ≤ a.2))

/-- The flavor occurrence list (`order.shavedIce?.flavor` per order). -/
def flavorKeys (orders : List ROrder) : List String := orders.map (·.flavor)

/-- The topping occurrence list (each topping of each order, in order). -/
def toppingKeys (orders : List ROrder) : List String :=
  (orders.map (·.toppings)).flatten

/-- `hour.toString().padStart(2, '0')`. -/
def pad2 (n : Nat) : String := if n < 10 then "0" ++ toString n else toString n

/-- The bucket label built at `sales-report` line 151. -/
def timeRange (h : Nat) : String :=
  pad2 h ++ ":00-" ++ pad2 (h + 1) ++ ":00"

/-- The hour-bucket occurrence list (one label per order). -/
def hourKeys (orders : List ROrder) : List String :=
  orders.map (fun o => timeRange o.hour)

/-- `topFlavors` of the summary (`sales-report` lines 120-131). -/
def topFlavors (orders : List ROrder) : List (String × Nat) :=
  topItems (flavorKeys orders)

/-- `topToppings` of the summary (`sales-report` lines 133-145). -/
def topToppings (orders : List ROrder) : List (String × Nat) :=
  topItems (toppingKeys orders)

/-- `peakTimes` of the summary (`sales-report` lines 147-159). -/
def peakTimes (orders : List ROrder) : List (String × Nat) :=
  topItems (hourKeys orders)

/-- `completionRate` (`sales-report` lines 174-176):
`totalOrders > 0 ? (completedOrders / totalOrders) * 100 : 0`. -/
def completionRate (orders : List ROrder) : Rat :=
  let totalOrders := orders.length
  let completedOrders := (orders.filter (fun o => o.status == "Completed")).length
  if 0 < totalOrders then ((completedOrders : Rat) / (totalOrders : Rat)) * 100
  else 0

/-! ## Review page (`src/pages/review/index.tsx`) -/

/-- A fetched `CustomerReview`. -/
structure Review where
  customerName : String
  rating : Rat
  comment : String
deriving DecidableEq

/-- `averageRating` (`review` lines 115-117):
`length > 0 ? reduce((sum, r) => sum + r.rating, 0) / length : 0`. -/
def averageRating (reviews : List Review) : Rat :=
  if 0 < reviews.length then
    reviews.foldl (fun sum r => sum + r.rating) 0 / (reviews.length : Rat)
  else 0

/-! ## Specification-side vocabulary

These definitions restate the spec's words (occurrence counts, maxima,
arithmetic means) independently of the pipelines above, so that the
theorems compare the code to the spec rather than the code to itself. -/

/-- Occurrence count of `k` in the multiset `ks`. -/
def countOcc (ks : List String) (k : String) : Nat :=
  (ks.filter (fun x => x == k)).length

/-- The maximum occurrence count over the elements of `ks` (0 if empty). -/
def maxCount (ks : List String) : Nat :=
  (ks.map (countOcc ks)).foldr max 0

/-- First-match lookup in a counting object (`obj[k] || 0`). -/
def lookupC (m : List (String × Nat)) (k : String) : Nat :=
  match m.find? (fun p => p.1 == k) with
  | some p => p.2
  | none => 0

/-- The keys of a counting object. -/
def keysOf (m : List (String × Nat)) : List String := m.map Prod.fst

/-! ## Sample data for witnesses and counterexamples -/

/-- A fresh, unused sample code document expiring at time 100. -/
def mcA : MenuCode :=
  { code := "ABCDE", cupSize := "M", order := none, isUsed := false,
    usedAt := none, expiresAt := 100, createdAt := 0 }

/-- `mcA` after redemption for order 7 at time 50. -/
def mcAUsed : MenuCode :=
  { code := "ABCDE", cupSize := "M", order := some 7, isUsed := true,
    usedAt := some 50, expiresAt := 100, createdAt := 0 }

/-- An expired sample document that was also already used. -/
def mcBExpiredUsed : MenuCode :=
  { code := "QQQQQ", cupSize := "S", order := some 3, isUsed := true,
    usedAt := some 1, expiresAt := 10, createdAt := 0 }

/-- A one-document store holding `mcA`. -/
def stA : Store := fun k => if k == "ABCDE" then some mcA else none

/-- A one-document store holding `mcBExpiredUsed`. -/
def stB : Store := fun k => if k == "QQQQQ" then some mcBExpiredUsed else none

/-- The empty collection. -/
def stEmpty : Store := fun _ => none

/-- A collection that already contains every code. -/
def stFull : Store := fun _ => some mcA

/-- A constant random stream: always draw index 0 (the letter A). -/
def randA : Nat → Fin 36 := fun _ => (0 : Fin 36)

/-- A two-order sample reporting period: one completed, one pending. -/
def sampleOrders : List ROrder :=
  [{ flavor := "Mango", toppings := ["Boba"], total := 50,
     status := "Completed", hour := 10 },
   { flavor := "Matcha", toppings := [], total := 30,
     status := "Pending", hour := 11 }]

/-- Two sample fetched reviews. -/
def sampleReviews : List Review :=
  [{ customerName := "Alice", rating := 5, comment := "great" },
   { customerName := "Bob", rating := 4, comment := "good" }]

instance {ε α : Type} [DecidableEq ε] [DecidableEq α] :
    DecidableEq (Except ε α) := fun x y =>
  match x, y with
  | .ok a, .ok b =>
    if h : a = b then isTrue (by rw [h])
    else isFalse (fun hh => h (Except.ok.inj hh))
  | .error a, .error b =>
    if h : a = b then isTrue (by rw [h])
    else isFalse (fun hh => h (Except.error.inj hh))
  | .ok _, .error _ => isFalse (fun hh => Except.noConfusion hh)
  | .error _, .ok _ => isFalse (fun hh => Except.noConfusion hh)

/-! ## Helper lemmas -/

theorem char_toNat_ofNat_valid (n : Nat) (h : n.isValidChar) :
    (Char.ofNat n).toNat = n := by
  rw [Char.ofNat, dif_pos h]
  rfl

theorem char_toUpper_toUpper (c : Char) : c.toUpper.toUpper = c.toUpper := by
  unfold Char.toUpper
  by_cases h : c.toNat ≥ 97 ∧ c.toNat ≤ 122
  · rw [if_pos h]
    have ht : (Char.ofNat (c.toNat - 32)).toNat = c.toNat - 32 :=
      char_toNat_ofNat_valid _ (Or.inl (by omega))
    rw [if_neg]
    rw [ht]
    omega
  · rw [if_neg h, if_neg h]

theorem jsToUpper_idem (s : String) : jsToUpper (jsToUpper s) = jsToUpper s := by
  show String.mk ((s.data.map Char.toUpper).map Char.toUpper)
      = String.mk (s.data.map Char.toUpper)
  rw [List.map_map]
  exact congrArg String.mk
    (List.map_congr_left (fun c _ => char_toUpper_toUpper c))

theorem saveCode_lookup_self (store : Store) (mc : MenuCode) (k : String)
    (hk : mc.code = k) : saveCode store mc k = some mc := by
  simp [saveCode, hk]

/-- Dissection of a successful `useCode` call: the looked-up document was
unexpired and unused, and the result is that document marked used, linked
and stamped, saved back into the collection. -/
theorem useCode_ok_dissect (store : Store) (now : Nat) (c : String)
    (oid : Nat) (mc2 : MenuCode) (store2 : Store)
    (h : useCode store now c oid = (.ok mc2, store2)) :
    ∃ mc, store (jsToUpper c) = some mc ∧
      mc2 = { mc with isUsed := true, order := some oid, usedAt := some now } ∧
      store2 = saveCode store mc2 ∧
      ¬ mc.expiresAt < now ∧ mc.isUsed = false := by
  cases hmc : store (jsToUpper c) with
  | none =>
    simp only [useCode, hmc, Prod.mk.injEq] at h
    exact absurd h.1 (fun hh => Except.noConfusion hh)
  | some mc =>
    simp only [useCode, hmc] at h
    split_ifs at h with h1 h2
    · simp only [Prod.mk.injEq] at h
      exact absurd h.1 (fun hh => Except.noConfusion hh)
    · simp only [Prod.mk.injEq] at h
      exact absurd h.1 (fun hh => Except.noConfusion hh)
    · simp only [Prod.mk.injEq] at h
      have heq : _ = mc2 := Except.ok.inj h.1
      refine ⟨mc, rfl, heq.symm, ?_, h1, by simpa using h2⟩
      rw [← heq]
      exact h.2.symm

/-- The one-document store `stA` respects the unique `code` index. -/
theorem stA_wellFormed : ∀ k x, stA k = some x → x.code = k := by
  intro k x hx
  by_cases hk : k = "ABCDE"
  · subst hk
    simp only [stA, beq_self_eq_true, if_pos] at hx
    injection hx with hx2
    rw [← hx2]
    rfl
  · simp [stA, beq_iff_eq, hk] at hx

theorem chars_getD_mem (v : Nat) : chars.getD v 'A' ∈ chars := by
  by_cases hv : v < chars.length
  · rw [List.getD_eq_getElem chars 'A' hv]
    exact List.getElem_mem hv
  · rw [List.getD_eq_default chars 'A' (Nat.le_of_not_lt hv)]
    decide

theorem mkCode_length (rand : Nat → Fin 36) (a : Nat) :
    (mkCode rand a).length = 5 := by
  simp [mkCode, String.length]

theorem mkCode_chars (rand : Nat → Fin 36) (a : Nat) :
    ∀ ch ∈ (mkCode rand a).data, ch ∈ chars := by
  intro ch hch
  simp only [mkCode, List.mem_map] at hch
  obtain ⟨i, _, hi⟩ := hch
  rw [← hi]
  exact chars_getD_mem _

theorem generateCodeFrom_ok (store : Store) (rand : Nat → Fin 36) :
    ∀ fuel attempt c, generateCodeFrom store rand attempt fuel = .ok c →
      (∃ a, c = mkCode rand a) ∧ store c = none := by
  intro fuel
  induction fuel with
  | zero =>
    intro attempt c h
    exact absurd h (fun hh => Except.noConfusion hh)
  | succ n ih =>
    intro attempt c h
    cases hx : store (mkCode rand attempt) with
    | none =>
      simp only [generateCodeFrom, hx] at h
      have hc : mkCode rand attempt = c := Except.ok.inj h
      rw [← hc]
      exact ⟨⟨attempt, rfl⟩, hx⟩
    | some y =>
      simp only [generateCodeFrom, hx] at h
      exact ih (attempt + 1) c h

theorem generateCodeFrom_exhausted (store : Store) (rand : Nat → Fin 36) :
    ∀ fuel attempt,
      (∀ i, i < fuel → (store (mkCode rand (attempt + i))).isSome) →
      generateCodeFrom store rand attempt fuel
        = .error "Unable to generate unique code after maximum attempts" := by
  intro fuel
  induction fuel with
  | zero => intro attempt _; rfl
  | succ n ih =>
    intro attempt h
    have h0 := h 0 (Nat.succ_pos n)
    rw [Nat.add_zero] at h0
    cases hx : store (mkCode rand attempt) with
    | none => rw [hx] at h0; exact absurd h0 (by decide)
    | some y =>
      simp only [generateCodeFrom, hx]
      refine ih (attempt + 1) (fun i hi => ?_)
      have := h (i + 1) (Nat.succ_lt_succ hi)
      have harith : attempt + (i + 1) = attempt + 1 + i := by omega
      rwa [harith] at this

/-! ## Claim theorems -/

/-! ### Counting-object lemmas for the sales aggregation -/

theorem lookupC_bump (m : List (String × Nat)) (k k2 : String) :
    lookupC (bump m k) k2
      = if k2 = k then lookupC m k2 + 1 else lookupC m k2 := by
  unfold bump
  by_cases hf : (m.find? (fun p => p.1 == k)).isSome
  · rw [if_pos hf]
    unfold lookupC
    rw [List.find?_map]
    have hpred : ((fun p : String × Nat => p.1 == k2) ∘
        (fun p : String × Nat => if p.1 == k then (p.1, p.2 + 1) else p))
        = (fun p : String × Nat => p.1 == k2) := by
      funext q
      by_cases hq : q.1 = k <;> simp [hq]
    rw [hpred]
    cases hfind : m.find? (fun p => p.1 == k2) with
    | none =>
      by_cases hk : k2 = k
      · subst hk
        rw [hfind] at hf
        exact absurd hf (by decide)
      · simp [hk]
    | some p =>
      have hp := List.find?_some hfind
      simp only [beq_iff_eq] at hp
      by_cases hk : k2 = k
      · subst hk
        simp [hp]
      · simp [hp, hk]
  · rw [if_neg hf]
    have hnone : m.find? (fun p => p.1 == k) = none :=
      Option.not_isSome_iff_eq_none.mp hf
    unfold lookupC
    rw [List.find?_append]
    by_cases hk : k2 = k
    · subst hk
      rw [hnone]
      simp
    · cases hfind : m.find? (fun p => p.1 == k2) with
      | none =>
        simp [hfind, hk, Ne.symm hk]
      | some p =>
        simp [hfind, hk]

theorem countOcc_cons (a k : String) (ks : List String) :
    countOcc (a :: ks) k = (if k = a then 1 else 0) + countOcc ks k := by
  by_cases h : a = k
  · subst h
    simp [countOcc, List.filter_cons, Nat.add_comm]
  · simp [countOcc, List.filter_cons, h, Ne.symm h]

theorem countOcc_pos (ks : List String) (k : String) :
    0 < countOcc ks k ↔ k ∈ ks := by
  induction ks with
  | nil => simp [countOcc]
  | cons a ks ih =>
    rw [countOcc_cons, List.mem_cons]
    by_cases h : k = a
    · simp [h]
    · simpa [h] using ih

theorem lookupC_foldl (ks : List String) :
    ∀ (m : List (String × Nat)) (k : String),
      lookupC (ks.foldl bump m) k = lookupC m k + countOcc ks k := by
  induction ks with
  | nil => intro m k; simp [countOcc]
  | cons a ks ih =>
    intro m k
    rw [List.foldl_cons, ih, lookupC_bump, countOcc_cons]
    by_cases h : k = a <;> simp [h] <;> omega

theorem lookupC_tally (ks : List String) (k : String) :
    lookupC (tally ks) k = countOcc ks k := by
  have := lookupC_foldl ks [] k
  simpa [tally, lookupC] using this

theorem mem_keys_bump (m : List (String × Nat)) (k k2 : String) :
    k2 ∈ keysOf (bump m k) ↔ k2 ∈ keysOf m ∨ k2 = k := by
  unfold bump
  by_cases hf : (m.find? (fun p => p.1 == k)).isSome
  · rw [if_pos hf]
    obtain ⟨p, hp⟩ := Option.isSome_iff_exists.mp hf
    have hpk := List.find?_some hp
    simp only [beq_iff_eq] at hpk
    have hkmem : k ∈ keysOf m := by
      rw [← hpk]
      exact List.mem_map_of_mem Prod.fst (List.mem_of_find?_eq_some hp)
    have hkeys : keysOf (m.map (fun p : String × Nat =>
        if p.1 == k then (p.1, p.2 + 1) else p)) = keysOf m := by
      unfold keysOf
      rw [List.map_map]
      apply List.map_congr_left
      intro q _
      by_cases hcase : q.1 = k <;> simp [hcase]
    rw [hkeys]
    constructor
    · exact Or.inl
    · intro h
      cases h with
      | inl h => exact h
      | inr h => exact h ▸ hkmem
  · rw [if_neg hf]
    simp [keysOf]

theorem nodupKeys_bump (m : List (String × Nat)) (k : String)
    (h : (keysOf m).Nodup) : (keysOf (bump m k)).Nodup := by
  unfold bump
  by_cases hf : (m.find? (fun p => p.1 == k)).isSome
  · rw [if_pos hf]
    have hkeys : keysOf (m.map (fun p : String × Nat =>
        if p.1 == k then (p.1, p.2 + 1) else p)) = keysOf m := by
      unfold keysOf
      rw [List.map_map]
      apply List.map_congr_left
      intro q _
      by_cases hcase : q.1 = k <;> simp [hcase]
    rw [hkeys]
    exact h
  · rw [if_neg hf]
    have hnone : m.find? (fun p => p.1 == k) = none :=
      Option.not_isSome_iff_eq_none.mp hf
    have hnk : k ∉ keysOf m := by
      intro hmem
      obtain ⟨p, hp, hpe⟩ := List.mem_map.mp hmem
      have := List.find?_eq_none.mp hnone p hp
      simp [hpe] at this
    unfold keysOf
    rw [List.map_append]
    simp only [List.map_cons, List.map_nil]
    rw [List.nodup_append]
    exact ⟨h, List.nodup_singleton k, by simpa [keysOf] using hnk⟩

theorem mem_of_nodupKeys (m : List (String × Nat)) (k : String) (v : Nat)
    (h : (keysOf m).Nodup) :
    (k, v) ∈ m ↔ (v = lookupC m k ∧ k ∈ keysOf m) := by
  induction m with
  | nil => simp [lookupC, keysOf]
  | cons p m ih =>
    have htail : (keysOf m).Nodup := by
      simp only [keysOf, List.map_cons, List.nodup_cons] at h
      exact h.2
    have hhead : p.1 ∉ keysOf m := by
      simp only [keysOf, List.map_cons, List.nodup_cons] at h
      exact h.1
    by_cases hk : p.1 = k
    · have hlook : lookupC (p :: m) k = p.2 := by
        unfold lookupC
        rw [List.find?_cons_of_pos _ (by simp [hk])]
      have hnotm : (k, v) ∉ m := by
        intro hmem
        exact hhead (hk ▸ List.mem_map_of_mem Prod.fst hmem)
      rw [hlook]
      simp only [List.mem_cons, keysOf, List.map_cons]
      constructor
      · intro hc
        cases hc with
        | inl hc =>
          rw [← hc]
          simp [hk]
        | inr hc => exact absurd hc hnotm
      · intro hc
        left
        obtain ⟨hv, _⟩ := hc
        rw [hv, ← hk]
    · have hlook : lookupC (p :: m) k = lookupC m k := by
        unfold lookupC
        rw [List.find?_cons_of_neg _ (by simp [hk])]
      have hne : (k, v) ≠ p := by
        intro he
        exact hk (by rw [← he])
      rw [hlook]
      simp only [List.mem_cons, keysOf, List.map_cons]
      rw [ih htail]
      constructor
      · intro hc
        cases hc with
        | inl hc => exact absurd hc.symm (fun he => hk (by rw [he]))
        | inr hc => exact ⟨hc.1, Or.inr hc.2⟩
      · intro hc
        obtain ⟨hv, hmem⟩ := hc
        cases hmem with
        | inl hmem => exact absurd hmem.symm hk
        | inr hmem => exact Or.inr ⟨hv, hmem⟩

theorem nodupKeys_tally (ks : List String) : (keysOf (tally ks)).Nodup := by
  have general : ∀ (l : List String) (m : List (String × Nat)),
      (keysOf m).Nodup → (keysOf (l.foldl bump m)).Nodup := by
    intro l
    induction l with
    | nil => intro m hm; exact hm
    | cons a l ih =>
      intro m hm
      exact ih (bump m a) (nodupKeys_bump m a hm)
  exact general ks [] (by simp [keysOf])

theorem mem_keys_foldl (ks : List String) :
    ∀ (m : List (String × Nat)) (k : String),
      k ∈ keysOf (ks.foldl bump m) ↔ k ∈ keysOf m ∨ k ∈ ks := by
  induction ks with
  | nil => intro m k; simp
  | cons a ks ih =>
    intro m k
    rw [List.foldl_cons, ih, mem_keys_bump, List.mem_cons]
    tauto

theorem mem_keys_tally (ks : List String) (k : String) :
    k ∈ keysOf (tally ks) ↔ k ∈ ks := by
  rw [tally, mem_keys_foldl]
  simp [keysOf]

theorem mem_tally (ks : List String) (p : String × Nat) :
    p ∈ tally ks ↔ (p.2 = countOcc ks p.1 ∧ 0 < countOcc ks p.1) := by
  obtain ⟨k, v⟩ := p
  rw [mem_of_nodupKeys _ _ _ (nodupKeys_tally ks), lookupC_tally,
    mem_keys_tally, ← countOcc_pos]

theorem le_foldr_max (l : List Nat) (x : Nat) (h : x ∈ l) :
    x ≤ l.foldr max 0 := by
  induction l with
  | nil => simp at h
  | cons a l ih =>
    rw [List.foldr_cons]
    cases List.mem_cons.mp h with
    | inl he => rw [he]; exact Nat.le_max_left _ _
    | inr hm => exact Nat.le_trans (ih hm) (Nat.le_max_right _ _)

theorem foldr_max_le (l : List Nat) (b : Nat) (h : ∀ x ∈ l, x ≤ b) :
    l.foldr max 0 ≤ b := by
  induction l with
  | nil => simp
  | cons a l ih =>
    rw [List.foldr_cons]
    exact Nat.max_le.mpr ⟨h a (by simp), ih (fun x hx => h x (by simp [hx]))⟩

theorem maxValue_tally (ks : List String) :
    maxValue (tally ks) = maxCount ks := by
  apply Nat.le_antisymm
  · apply foldr_max_le
    intro x hx
    obtain ⟨p, hp, hpe⟩ := List.mem_map.mp hx
    obtain ⟨hv, hpos⟩ := (mem_tally ks p).mp hp
    have hkmem : p.1 ∈ ks := (countOcc_pos ks p.1).mp hpos
    rw [← hpe, hv]
    exact le_foldr_max _ _ (List.mem_map_of_mem (countOcc ks) hkmem)
  · apply foldr_max_le
    intro x hx
    obtain ⟨k, hk, hke⟩ := List.mem_map.mp hx
    have hpos : 0 < countOcc ks k := (countOcc_pos ks k).mpr hk
    have hmem : (k, countOcc ks k) ∈ tally ks :=
      (mem_tally ks (k, countOcc ks k)).mpr ⟨rfl, hpos⟩
    rw [← hke]
    exact le_foldr_max _ _ (List.mem_map_of_mem Prod.snd hmem)

theorem mem_keys_topItems (ks : List String) (name : String) :
    name ∈ keysOf (topItems ks) ↔
      (countOcc ks name = maxCount ks ∧ 0 < maxCount ks) := by
  unfold topItems keysOf
  simp only [List.mem_map, List.mem_mergeSort, List.mem_filter,
    Bool.and_eq_true, beq_iff_eq, decide_eq_true_eq]
  constructor
  · rintro ⟨p, ⟨⟨hmem, hv, hpos⟩, rfl⟩⟩
    obtain ⟨hcount, _⟩ := (mem_tally ks p).mp hmem
    rw [maxValue_tally] at hv hpos
    refine ⟨?_, hpos⟩
    rw [← hcount]
    exact hv
  · rintro ⟨hc, hpos⟩
    refine ⟨(name, countOcc ks name), ⟨⟨?_, ?_, ?_⟩, rfl⟩⟩
    · exact (mem_tally ks _).mpr ⟨rfl, by rw [hc]; exact hpos⟩
    · rw [maxValue_tally, hc]
    · rwa [maxValue_tally]

theorem topItems_nil : topItems [] = [] := by
  simp [topItems, tally]

theorem foldl_add_rating (l : List Review) (a : Rat) :
    l.foldl (fun sum r => sum + r.rating) a = a + (l.map (·.rating)).sum := by
  induction l generalizing a with
  | nil => simp
  | cons x xs ih => simp [ih, add_assoc]

/-- C6: for every list of orders selected for the reporting period, the
completion rate equals 100 times the count of orders with status
"Completed" divided by the total count, and equals 0 on the empty
selection. -/
theorem completionRate_spec (orders : List ROrder) :
    (orders ≠ [] → completionRate orders
      = 100 * ((orders.filter (fun o => o.status == "Completed")).length : Rat)
          / (orders.length : Rat)) ∧
    (orders = [] → completionRate orders = 0) := by
  constructor
  · intro h
    have hlen : 0 < orders.length := List.length_pos.mpr h
    rw [completionRate]
    rw [if_pos hlen, div_mul_eq_mul_div, mul_comm]
  · intro h
    rw [h]
    rfl

/-- Witness for C6: on the two-order sample (one completed) the rate is
100·1/2. -/
theorem completionRate_spec_witness :
    completionRate sampleOrders
      = 100 * ((sampleOrders.filter (fun o => o.status == "Completed")).length : Rat)
          / (sampleOrders.length : Rat) :=
  (completionRate_spec sampleOrders).1 (by decide)

/-- C8: the review page's displayed average rating equals the arithmetic
mean of the fetched ratings, and equals 0 when the review list is
empty. -/
theorem averageRating_spec (reviews : List Review) :
    (reviews ≠ [] → averageRating reviews
      = (reviews.map (·.rating)).sum / (reviews.length : Rat)) ∧
    (reviews = [] → averageRating reviews = 0) := by
  constructor
  · intro h
    have hlen : 0 < reviews.length := List.length_pos.mpr h
    rw [averageRating, if_pos hlen, foldl_add_rating, zero_add]
  · intro h
    rw [h]
    rfl

/-- Witness for C8: the sample reviews rated 5 and 4 average to 9/2. -/
theorem averageRating_spec_witness :
    averageRating sampleReviews
      = (sampleReviews.map (·.rating)).sum / (sampleReviews.length : Rat) :=
  (averageRating_spec sampleReviews).1 (by decide)

/-- C7: for every reporting selection, `topFlavors` contains exactly the
flavors whose occurrence count attains the maximum over all flavors (all
ties included), and is empty on the empty selection; the same maximal-tie
rule holds for `topToppings` over topping occurrences and for `peakTimes`
over the one-hour buckets of order creation times. -/
theorem top_items_spec (orders : List ROrder) (name : String) :
    (name ∈ keysOf (topFlavors orders) ↔
      (countOcc (flavorKeys orders) name = maxCount (flavorKeys orders) ∧
        0 < maxCount (flavorKeys orders))) ∧
    (name ∈ keysOf (topToppings orders) ↔
      (countOcc (toppingKeys orders) name = maxCount (toppingKeys orders) ∧
        0 < maxCount (toppingKeys orders))) ∧
    (name ∈ keysOf (peakTimes orders) ↔
      (countOcc (hourKeys orders) name = maxCount (hourKeys orders) ∧
        0 < maxCount (hourKeys orders))) ∧
    topFlavors [] = [] ∧ topToppings [] = [] ∧ peakTimes [] = [] := by
  refine ⟨mem_keys_topItems _ _, mem_keys_topItems _ _, mem_keys_topItems _ _,
    ?_, ?_, ?_⟩
  · exact topItems_nil
  · exact topItems_nil
  · exact topItems_nil

/-- C2: the admin order-status transition function offers exactly the
forward steps Pending→Preparing, Preparing→Ready, Ready→Completed;
Cancelled is offered from every status except Completed and Cancelled;
and nothing is offered out of Completed or Cancelled, so both are
terminal. -/
theorem order_status_transitions :
    offeredStatusActions "Pending" = ["Preparing", "Cancelled"] ∧
    offeredStatusActions "Preparing" = ["Ready", "Cancelled"] ∧
    offeredStatusActions "Ready" = ["Completed", "Cancelled"] ∧
    offeredStatusActions "Completed" = [] ∧
    offeredStatusActions "Cancelled" = [] ∧
    getNextStatus "Pending" = some "Preparing" ∧
    getNextStatus "Preparing" = some "Ready" ∧
    getNextStatus "Ready" = some "Completed" ∧
    getNextStatus "Completed" = none ∧
    getNextStatus "Cancelled" = none := by
  decide

/-- C9: menu-code lookup is case-insensitive — `validateCode`, `useCode`
and `getOrderByCode` behave identically on an input string and on its
uppercase form, because each normalizes the input with `toUpperCase`
before querying. -/
theorem code_lookup_case_insensitive (store : Store) (now : Nat)
    (c : String) (oid : Nat) :
    validateCode store now c = validateCode store now (jsToUpper c) ∧
    useCode store now c oid = useCode store now (jsToUpper c) oid ∧
    getOrderByCode store c = getOrderByCode store (jsToUpper c) := by
  unfold validateCode useCode getOrderByCode
  rw [jsToUpper_idem]
  exact ⟨rfl, rfl, rfl⟩

/-- C10: `useCode` is atomic on failure — whenever it returns an error
(code not found, expired, or already used), the stored collection is
unchanged; the document is assigned and saved only on the success path. -/
theorem useCode_atomic_on_failure (store : Store) (now : Nat) (c : String)
    (oid : Nat) (e : String) (h : (useCode store now c oid).1 = .error e) :
    (useCode store now c oid).2 = store := by
  cases hmc : store (jsToUpper c) with
  | none => simp only [useCode, hmc]
  | some mc =>
    simp only [useCode, hmc] at h ⊢
    by_cases h1 : mc.expiresAt < now
    · rw [if_pos h1]
    · rw [if_neg h1] at h ⊢
      by_cases h2 : mc.isUsed = true
      · rw [if_pos h2]
      · rw [if_neg h2] at h
        exact absurd h (fun hh => Except.noConfusion hh)

/-- Witness for C10: redeeming the expired code `QQQQQ` fails and leaves
the collection `stB` untouched. -/
theorem useCode_atomic_on_failure_witness :
    (useCode stB 200 "QQQQQ" 9).2 = stB :=
  useCode_atomic_on_failure stB 200 "QQQQQ" 9 "Code has expired" rfl

/-- C1 counterexample: as stated, the claim is false — after `QQQQQ`-style
expiry overtakes a redeemed code, a subsequent `validateCode` fails with
"Code has expired", not "Code has already been used".  Here `useCode`
succeeds at time 50 on a code expiring at 100, and the follow-up call at
time 200 reports expiry. -/
theorem single_use_message_cx :
    useCode stA 50 "ABCDE" 7 = (.ok mcAUsed, saveCode stA mcAUsed) ∧
    validateCode (useCode stA 50 "ABCDE" 7).2 200 "ABCDE"
      = .error "Code has expired" ∧
    validateCode (useCode stA 50 "ABCDE" 7).2 200 "ABCDE"
      ≠ .error "Code has already been used" :=
  ⟨rfl, by decide, by decide⟩

/-- C1 (amended): a successful `useCode` is possible at most once in a
code's lifetime — it sets `isUsed` to true, and every subsequent
`validateCode` or `useCode` on the same code fails: with "Code has
expired" when the code has expired by the time of the later call, and
with "Code has already been used" otherwise. -/
theorem menuCode_single_use (store : Store) (now : Nat) (c : String)
    (oid : Nat) (mc2 : MenuCode) (store2 : Store) (now2 oid2 : Nat)
    (hwf : ∀ k x, store k = some x → x.code = k)
    (h : useCode store now c oid = (.ok mc2, store2)) :
    mc2.isUsed = true ∧
    validateCode store2 now2 c
      = .error (if mc2.expiresAt < now2 then "Code has expired"
                else "Code has already been used") ∧
    (useCode store2 now2 c oid2).1
      = .error (if mc2.expiresAt < now2 then "Code has expired"
                else "Code has already been used") := by
  obtain ⟨mc, hmc, hmc2, hst2, hexp, hused⟩ := useCode_ok_dissect _ _ _ _ _ _ h
  have hcode : mc2.code = jsToUpper c := by
    rw [hmc2]
    exact hwf (jsToUpper c) mc hmc
  have hlook : store2 (jsToUpper c) = some mc2 := by
    rw [hst2]
    exact saveCode_lookup_self _ _ _ hcode
  have hu : mc2.isUsed = true := by rw [hmc2]
  refine ⟨hu, ?_, ?_⟩
  · simp only [validateCode, hlook]
    by_cases h2 : mc2.expiresAt < now2
    · rw [if_pos h2, if_pos h2]
    · rw [if_neg h2, if_neg h2, if_pos hu]
  · simp only [useCode, hlook]
    by_cases h2 : mc2.expiresAt < now2
    · rw [if_pos h2, if_pos h2]
    · rw [if_neg h2, if_neg h2, if_pos hu]

/-- Witness for C1: after redeeming `ABCDE` at time 50, a second check at
time 60 (before expiry) reports the code as already used. -/
theorem menuCode_single_use_witness :
    mcAUsed.isUsed = true ∧
    validateCode (saveCode stA mcAUsed) 60 "ABCDE"
      = .error (if mcAUsed.expiresAt < 60 then "Code has expired"
                else "Code has already been used") ∧
    (useCode (saveCode stA mcAUsed) 60 "ABCDE" 8).1
      = .error (if mcAUsed.expiresAt < 60 then "Code has expired"
                else "Code has already been used") :=
  menuCode_single_use stA 50 "ABCDE" 7 mcAUsed (saveCode stA mcAUsed) 60 8
    stA_wellFormed rfl

/-- C5: if `useCode code orderId` succeeds, a later `getOrderByCode code`
returns exactly `orderId` (the redeemed code doubles as the tracking
identifier); and for a stored code that was never successfully used
(its `order` link is still null), `getOrderByCode` fails with
"No order found for this code". -/
theorem code_order_linkage (store : Store) (now : Nat) (c : String)
    (oid : Nat) (mc2 : MenuCode) (store2 : Store) (mc : MenuCode) :
    ((∀ k x, store k = some x → x.code = k) →
      useCode store now c oid = (.ok mc2, store2) →
      getOrderByCode store2 c = .ok oid) ∧
    (store (jsToUpper c) = some mc → mc.order = none →
      getOrderByCode store c = .error "No order found for this code") := by
  constructor
  · intro hwf h
    obtain ⟨mcx, hmc, hmc2, hst2, _, _⟩ := useCode_ok_dissect _ _ _ _ _ _ h
    have hcode : mc2.code = jsToUpper c := by
      rw [hmc2]
      exact hwf (jsToUpper c) mcx hmc
    have hlook : store2 (jsToUpper c) = some mc2 := by
      rw [hst2]
      exact saveCode_lookup_self _ _ _ hcode
    have hord : mc2.order = some oid := by rw [hmc2]
    simp only [getOrderByCode, hlook, hord]
  · intro hmc hord
    simp only [getOrderByCode, hmc, hord]

/-- Witness for C5: redeeming `ABCDE` for order 7 makes tracking by
`ABCDE` return order 7, while tracking the still-unused store `stA`
reports that no order exists for the code. -/
theorem code_order_linkage_witness :
    getOrderByCode (saveCode stA mcAUsed) "ABCDE" = .ok 7 ∧
    getOrderByCode stA "ABCDE" = .error "No order found for this code" :=
  ⟨(code_order_linkage stA 50 "ABCDE" 7 mcAUsed (saveCode stA mcAUsed)
      mcA).1 stA_wellFormed rfl,
   (code_order_linkage stA 50 "ABCDE" 7 mcAUsed (saveCode stA mcAUsed)
      mcA).2 (by decide) (by decide)⟩

/-- C3: `generateCode` returns a 5-character string drawn from the
uppercase A-Z / 0-9 alphabet that does not already exist in the stored
collection; on a collision it retries with the next candidate; and when
100 successive candidates all collide it throws "Unable to generate
unique code after maximum attempts". -/
theorem generateCode_spec (store : Store) (rand : Nat → Fin 36) :
    (∀ c, generateCode store rand = .ok c →
      c.length = 5 ∧ (∀ ch ∈ c.data, ch ∈ chars) ∧ store c = none) ∧
    ((store (mkCode rand 0)).isSome → store (mkCode rand 1) = none →
      generateCode store rand = .ok (mkCode rand 1)) ∧
    ((∀ a, a < 100 → (store (mkCode rand a)).isSome) →
      generateCode store rand
        = .error "Unable to generate unique code after maximum attempts") := by
  refine ⟨?_, ?_, ?_⟩
  · intro c h
    obtain ⟨⟨a, ha⟩, hnone⟩ := generateCodeFrom_ok store rand 100 0 c h
    exact ⟨ha ▸ mkCode_length rand a, ha ▸ mkCode_chars rand a, hnone⟩
  · intro h0 h1
    cases hx : store (mkCode rand 0) with
    | none => rw [hx] at h0; exact absurd h0 (by decide)
    | some y =>
      show generateCodeFrom store rand 0 100 = _
      simp only [generateCodeFrom, hx, h1]
  · intro h
    exact generateCodeFrom_exhausted store rand 100 0
      (fun i hi => by simpa using h i hi)

/-- Witness for C3: on the empty collection the first candidate `AAAAA`
is accepted, and on a full collection the 100 attempts are exhausted. -/
theorem generateCode_spec_witness :
    (("AAAAA" : String).length = 5 ∧ (∀ ch ∈ ("AAAAA" : String).data, ch ∈ chars) ∧
      stEmpty "AAAAA" = none) ∧
    generateCode stFull randA
      = .error "Unable to generate unique code after maximum attempts" :=
  ⟨(generateCode_spec stEmpty randA).1 "AAAAA" rfl,
   (generateCode_spec stFull randA).2.2 (fun _ _ => rfl)⟩

/-- C4: a newly created menu code's `expiresAt` defaults to exactly 24
hours after its creation time, and an expired code is rejected by
`validateCode`, `useCode` and `canBeUsed` with reason "Code has expired"
before the single-use check is reached. -/
theorem code_expiry (code cupSize : String) (created now : Nat)
    (store : Store) (c : String) (mc : MenuCode) (oid : Nat)
    (hmc : store (jsToUpper c) = some mc) (hexp : mc.expiresAt < now) :
    (newMenuCode code cupSize created).expiresAt
      = (newMenuCode code cupSize created).createdAt + 24 * 60 * 60 * 1000 ∧
    validateCode store now c = .error "Code has expired" ∧
    (useCode store now c oid).1 = .error "Code has expired" ∧
    canBeUsed mc now = (false, some "Code has expired") := by
  refine ⟨rfl, ?_, ?_, ?_⟩
  · simp only [validateCode, hmc]
    rw [if_pos hexp]
  · simp only [useCode, hmc]
    rw [if_pos hexp]
  · rw [canBeUsed, if_pos hexp]

/-- Witness for C4: the store `stB` holds the expired (and already used)
code `QQQQQ`; at time 200 every check reports expiry, not re-use. -/
theorem code_expiry_witness :
    (newMenuCode "XYZZY" "L" 5).expiresAt
      = (newMenuCode "XYZZY" "L" 5).createdAt + 24 * 60 * 60 * 1000 ∧
    validateCode stB 200 "QQQQQ" = .error "Code has expired" ∧
    (useCode stB 200 "QQQQQ" 9).1 = .error "Code has expired" ∧
    canBeUsed mcBExpiredUsed 200 = (false, some "Code has expired") :=
  code_expiry "XYZZY" "L" 5 200 stB "QQQQQ" mcBExpiredUsed 9 (by decide)
    (by decide)

end Bingsu
